import Mathlib

/- Shallow embedding of src/freetype-harbuzz-icu.cpp.

   Fixed-point (26.6) coordinates and pixel indices are mathematical
   integers: FT_Pos is a 64-bit signed long on the build platform and none
   of the quantities appearing in the program approach its range; the
   INT_MAX and INT_MIN sentinels used by the metrics pass are modelled by
   their exact 32-bit values.  The canvas is modelled as a total function
   from flat Int indices to coverage values, so that a store to any index,
   in range or not, would be observable.  FreeType, HarfBuzz and ICU are
   external collaborators of the program and enter the embedding as oracle
   parameters; the control flow around them is translated line by line
   from main and from the helper DrawGlyph. -/

def INT_MAX : Int := 2147483647

def INT_MIN : Int := -2147483648

/-- A rendered FT_Bitmap: pixel width, pixel rows, and the row-major
coverage buffer, indexed by q * width + p exactly as in the source. -/
structure FTBitmap where
  width : Nat
  rows : Nat
  buffer : Nat → Nat

/-- FT_BBox in 26.6 fixed-point units. -/
structure FTBBox where
  xMin : Int
  yMin : Int
  xMax : Int
  yMax : Int
  deriving DecidableEq

/-- One iteration of the inner loop body of DrawGlyph (lines 28-33): with
column offset p and row offset q, compute i = x + p and j = y + q, skip the
store when (i, j) is outside the canvas, otherwise OR the bitmap sample
into the flat canvas index j * width + i. -/
def drawStep (w h : Int) (bm : FTBitmap) (x y : Int) (p q : Nat) (image : Int → Nat) : Int → Nat :=
  if x + (p : Int) < 0 ∨ y + (q : Int) < 0 ∨ x + (p : Int) ≥ w ∨ y + (q : Int) ≥ h then image
  else fun k =>
    if k = (y + (q : Int)) * w + (x + (p : Int)) then
      image ((y + (q : Int)) * w + (x + (p : Int))) ||| bm.buffer (q * bm.width + p)
    else image k

/-- The inner loop of DrawGlyph over rows q = 0 .. rows - 1 at a fixed
column offset p (lines 28-34). -/
def drawCol (w h : Int) (bm : FTBitmap) (x y : Int) (p : Nat) (image : Int → Nat) : Int → Nat :=
  (List.range bm.rows).foldl (fun img q => drawStep w h bm x y p q img) image

/-- DrawGlyph (lines 15-36): the outer loop over columns p = 0 .. width - 1,
each running the inner loop over rows. -/
def DrawGlyph (image : Int → Nat) (w h : Int) (bm : FTBitmap) (x y : Int) : Int → Nat :=
  (List.range bm.width).foldl (fun img p => drawCol w h bm x y p img) image

/-- The FreeType face, seen from main as an oracle.  cbox, bitmap and the
bitmap bearings are queried after FT_Set_Transform with a pen translation,
so they are functions of the translation; the slot advance and the slot
metrics fields are not changed by a pure delta translation (the transform
matrix is NULL in the source), so they depend on the codepoint alone. -/
structure FaceOracle where
  advance : Nat → Int × Int
  cbox : Int × Int → Nat → FTBBox
  metricsHeight : Nat → Int
  horiBearingY : Nat → Int
  bitmap : Int × Int → Nat → FTBitmap
  bitmapLeft : Int × Int → Nat → Int
  bitmapTop : Int × Int → Nat → Int

/-- State of the metrics pass (lines 165-197): the pen translation, the
running union bounding box, and aboveOriginShift. -/
structure MetricsState where
  trans : Int × Int
  bbox : FTBBox
  shift : Int

/-- Lines 165-174: translation = (0,0), bbox at the INT_MAX / INT_MIN
sentinels, aboveOriginShift = INT_MIN. -/
def initMetricsState : MetricsState :=
  { trans := (0, 0)
    bbox := { xMin := INT_MAX, yMin := INT_MAX, xMax := INT_MIN, yMax := INT_MIN }
    shift := INT_MIN }

/-- The four conditional updates of lines 190-193. -/
def unionBBox (b g : FTBBox) : FTBBox :=
  { xMin := if g.xMin < b.xMin then g.xMin else b.xMin
    yMin := if g.yMin < b.yMin then g.yMin else b.yMin
    xMax := if g.xMax > b.xMax then g.xMax else b.xMax
    yMax := if g.yMax > b.yMax then g.yMax else b.yMax }

/-- One iteration of the metrics loop (lines 176-197): query the glyph
cbox at the current translation, advance the pen, union the box, and
update aboveOriginShift from metrics.height - metrics.horiBearingY. -/
def metricsStep (face : FaceOracle) (s : MetricsState) (cp : Nat) : MetricsState :=
  let g := face.cbox s.trans cp
  let adv := face.advance cp
  let temp := face.metricsHeight cp - face.horiBearingY cp
  { trans := (s.trans.1 + adv.1, s.trans.2 + adv.2)
    bbox := unionBBox s.bbox g
    shift := if temp > s.shift then temp else s.shift }

def metricsPassFrom (face : FaceOracle) (s : MetricsState) (cps : List Nat) : MetricsState :=
  cps.foldl (metricsStep face) s

/-- The whole metrics pass over the shaped glyph sequence. -/
def metricsPass (face : FaceOracle) (cps : List Nat) : MetricsState :=
  metricsPassFrom face initMetricsState cps

/-- Line 200: FT_Int width = (bbox.xMax - bbox.xMin) / 64, with C integer
division, which truncates toward zero. -/
def canvasWidth (b : FTBBox) : Int := Int.tdiv (b.xMax - b.xMin) 64

/-- Line 201: FT_Int height = (bbox.yMax - bbox.yMin) / 64. -/
def canvasHeight (b : FTBBox) : Int := Int.tdiv (b.yMax - b.yMin) 64

/-- State of the render pass (lines 206-218): pen translation and canvas. -/
structure RenderState where
  trans : Int × Int
  image : Int → Nat

/-- One iteration of the render loop (lines 208-218): load the glyph at
the current translation, composite its bitmap with DrawGlyph at
destination (bitmap_left, height - bitmap_top), advance the pen. -/
def renderStep (face : FaceOracle) (w h : Int) (s : RenderState) (cp : Nat) : RenderState :=
  { trans := (s.trans.1 + (face.advance cp).1, s.trans.2 + (face.advance cp).2)
    image := DrawGlyph s.image w h (face.bitmap s.trans cp)
      (face.bitmapLeft s.trans cp) (h - face.bitmapTop s.trans cp) }

def renderPassFrom (face : FaceOracle) (w h : Int) (s : RenderState) (cps : List Nat) : RenderState :=
  cps.foldl (renderStep face w h) s

/-- Lines 199-218 of main: size the canvas from the metrics pass, start a
fresh zero canvas with the pen reset to (0, aboveOriginShift), and run the
render pass.  Returns the final render state with the two dimensions. -/
def mainPipeline (face : FaceOracle) (cps : List Nat) : RenderState × Int × Int :=
  let m := metricsPass face cps
  let w := canvasWidth m.bbox
  let h := canvasHeight m.bbox
  (renderPassFrom face w h { trans := (0, m.shift), image := fun _ => 0 } cps, w, h)

/-- PrintPGM (lines 39-54) as data: the width and height header fields,
the fixed 255 maximum, and the row-major pixel samples image[i*width+j]. -/
def PrintPGM (image : Int → Nat) (w h : Int) : Int × Int × Nat × List (List Nat) :=
  (w, h, 255,
    (List.range h.toNat).map (fun i =>
      (List.range w.toNat).map (fun j => image ((i : Int) * w + (j : Int)))))

/-- The ICU calls of lines 104-128 as oracles.  Each call receives the
current value of the error variable and returns its result together with
the value it leaves in the error variable. -/
structure IcuEngine where
  toUChars : List Nat → Int → List Nat × Int
  writeReordered : List Nat → Int → List Nat × Int
  fromUChars : List Nat → Int → List Nat × Int

/-- Lines 104-128: error starts at U_ZERO_ERROR = 0 and is threaded, in
order, through the UTF-8 to UTF-16 conversion, the bidi reordering and the
conversion back; the program never branches on it. -/
def icuReorder (e : IcuEngine) (input : List Nat) : List Nat × Int :=
  let r1 := e.toUChars input 0
  let r2 := e.writeReordered r1.1 r1.2
  e.fromUChars r2.1 r2.2

/-- The program from the ICU section to the PGM output: reorder, shape
(HarfBuzz as an oracle from the reordered bytes to glyph codepoints),
run the two passes, print. -/
def fullProgram (e : IcuEngine) (shape : List Nat → List Nat) (face : FaceOracle)
    (input : List Nat) : Int × Int × Nat × List (List Nat) :=
  let reordered := icuReorder e input
  let cps := shape reordered.1
  let result := mainPipeline face cps
  PrintPGM result.1.image result.2.1 result.2.2

/-- A well-formed bounding box. -/
abbrev wfBBox (b : FTBBox) : Prop := b.xMin ≤ b.xMax ∧ b.yMin ≤ b.yMax

/-- Sum of the x components of the advances of a glyph sequence. -/
def advSumX (face : FaceOracle) (cps : List Nat) : Int :=
  (cps.map (fun cp => (face.advance cp).1)).sum

/-- Sum of the y components of the advances of a glyph sequence. -/
def advSumY (face : FaceOracle) (cps : List Nat) : Int :=
  (cps.map (fun cp => (face.advance cp).2)).sum

/-- Number of UTF-8 code units (bytes) encoding one Unicode scalar value.
Models the external ICU converter of the contract in section 6 of the
spec; this is the standard UTF-8 length function. -/
def utf8Len (cp : Nat) : Nat :=
  if cp < 0x80 then 1 else if cp < 0x800 then 2 else if cp < 0x10000 then 3 else 4

/-- Number of UTF-16 code units encoding one Unicode scalar value. -/
def utf16Len (cp : Nat) : Nat := if cp < 0x10000 then 1 else 2

/-- A Unicode scalar value: in range and not a surrogate. -/
abbrev wellFormedScalar (cp : Nat) : Prop :=
  cp < 0x110000 ∧ ¬(0xD800 ≤ cp ∧ cp ≤ 0xDFFF)

/-- UTF-8 byte length of a text given as scalar values. -/
def utf8Size (t : List Nat) : Nat := (t.map utf8Len).sum

/-- UTF-16 code unit length of a text given as scalar values. -/
def utf16Size (t : List Nat) : Nat := (t.map utf16Len).sum

/-- Line 108: the UTF-16 buffer is allocated with str.length() + 1 code
units, where str.length() is the UTF-8 byte count of the input. -/
def utf16BufUnits (t : List Nat) : Nat := utf8Size t + 1

/-- Line 120: the UTF-8 output buffer is allocated with length * 2 bytes,
where length is the UTF-16 code unit count of the reordered text. -/
def utf8BufBytes (t : List Nat) : Nat := utf16Size t * 2

/-- A concrete 1 x 1 bitmap of full coverage, for witnesses. -/
def bmTest : FTBitmap := { width := 1, rows := 1, buffer := fun _ => 255 }

/-- A concrete face: one glyph design, advance (64, 0), ink box
(0, 0, 64, 64), metrics.height = horiBearingY = 64 (so the shift
contribution is 0), rendered as a 1 x 1 bitmap with bearings (0, 1). -/
def face₀ : FaceOracle :=
  { advance := fun _ => (64, 0)
    cbox := fun _ _ => { xMin := 0, yMin := 0, xMax := 64, yMax := 64 }
    metricsHeight := fun _ => 64
    horiBearingY := fun _ => 64
    bitmap := fun _ _ => bmTest
    bitmapLeft := fun _ _ => 0
    bitmapTop := fun _ _ => 1 }

/-- Like face₀ but with metrics.height - horiBearingY = 5, so the metrics
pass computes aboveOriginShift = 5. -/
def face₁ : FaceOracle :=
  { advance := fun _ => (64, 0)
    cbox := fun _ _ => { xMin := 0, yMin := 0, xMax := 64, yMax := 64 }
    metricsHeight := fun _ => 64
    horiBearingY := fun _ => 59
    bitmap := fun _ _ => bmTest
    bitmapLeft := fun _ _ => 0
    bitmapTop := fun _ _ => 1 }

/-- An ICU engine whose first conversion reports an internal error code 1
and produces no output text; later calls propagate the error. -/
def badIcu : IcuEngine :=
  { toUChars := fun _ _ => ([], 1)
    writeReordered := fun s err => (s, err)
    fromUChars := fun s err => (s, err) }

/-- An ICU engine that succeeds and passes text through unchanged. -/
def goodIcu : IcuEngine :=
  { toUChars := fun s err => (s, err)
    writeReordered := fun s err => (s, err)
    fromUChars := fun s err => (s, err) }

/- ------------------------------------------------------------------ -/
/- Pointwise characterization of the DrawGlyph loops.                 -/
/- ------------------------------------------------------------------ -/

theorem foldl_range_pointwise_miss (g : Nat → (Int → Nat) → Int → Nat) (k : Int) :
    ∀ (n : Nat) (image : Int → Nat), (∀ a img, a < n → g a img k = img k) →
    ((List.range n).foldl (fun img a => g a img) image) k = image k := by
  intro n
  induction n with
  | zero => intro image _; rfl
  | succ n ih =>
    intro image hm
    rw [List.range_succ, List.foldl_append]
    have h1 : List.foldl (fun img a => g a img)
        (List.foldl (fun img a => g a img) image (List.range n)) [n]
        = g n (List.foldl (fun img a => g a img) image (List.range n)) := rfl
    rw [h1, hm n _ (Nat.lt_succ_self n),
      ih image (fun a img ha => hm a img (Nat.lt_succ_of_lt ha))]

theorem foldl_range_pointwise_hit (g : Nat → (Int → Nat) → Int → Nat) (k : Int) (b : Nat) :
    ∀ (n a₀ : Nat) (image : Int → Nat), a₀ < n →
    (∀ a img, a < n → a ≠ a₀ → g a img k = img k) →
    (∀ img, g a₀ img k = img k ||| b) →
    ((List.range n).foldl (fun img a => g a img) image) k = image k ||| b := by
  intro n
  induction n with
  | zero => intro a₀ image h; exact absurd h (Nat.not_lt_zero a₀)
  | succ n ih =>
    intro a₀ image ha hm hh
    rw [List.range_succ, List.foldl_append]
    have h1 : List.foldl (fun img a => g a img)
        (List.foldl (fun img a => g a img) image (List.range n)) [n]
        = g n (List.foldl (fun img a => g a img) image (List.range n)) := rfl
    rw [h1]
    rcases Nat.lt_succ_iff_lt_or_eq.mp ha with hlt | heq
    · rw [hm n _ (Nat.lt_succ_self n) (Nat.ne_of_gt hlt),
        ih a₀ image hlt (fun a img hb hne => hm a img (Nat.lt_succ_of_lt hb) hne) hh]
    · subst heq
      rw [hh, foldl_range_pointwise_miss g k a₀ image
        (fun a img hb => hm a img (Nat.lt_succ_of_lt hb) (Nat.ne_of_lt hb))]

theorem drawStep_oob (w h : Int) (bm : FTBitmap) (x y : Int) (p q : Nat) (image : Int → Nat)
    (hg : x + (p : Int) < 0 ∨ y + (q : Int) < 0 ∨ x + (p : Int) ≥ w ∨ y + (q : Int) ≥ h) :
    drawStep w h bm x y p q image = image := by
  unfold drawStep
  rw [if_pos hg]

theorem drawStep_ne (w h : Int) (bm : FTBitmap) (x y : Int) (p q : Nat) (image : Int → Nat)
    (k : Int) (hk : k ≠ (y + (q : Int)) * w + (x + (p : Int))) :
    drawStep w h bm x y p q image k = image k := by
  unfold drawStep
  by_cases hg : x + (p : Int) < 0 ∨ y + (q : Int) < 0 ∨ x + (p : Int) ≥ w ∨ y + (q : Int) ≥ h
  · rw [if_pos hg]
  · rw [if_neg hg]
    exact if_neg hk

theorem drawStep_hit (w h : Int) (bm : FTBitmap) (x y : Int) (p q : Nat) (image : Int → Nat)
    (hg : ¬(x + (p : Int) < 0 ∨ y + (q : Int) < 0 ∨ x + (p : Int) ≥ w ∨ y + (q : Int) ≥ h)) :
    drawStep w h bm x y p q image ((y + (q : Int)) * w + (x + (p : Int)))
      = image ((y + (q : Int)) * w + (x + (p : Int))) ||| bm.buffer (q * bm.width + p) := by
  unfold drawStep
  rw [if_neg hg]
  exact if_pos rfl

/-- Uniqueness of the flat index decomposition j * w + i for in-range
column coordinates 0 ≤ i < w. -/
theorem flatIdx_inj {w i j a b : Int} (hi0 : 0 ≤ i) (hiw : i < w) (ha0 : 0 ≤ a) (haw : a < w)
    (heq : j * w + i = b * w + a) : i = a ∧ j = b := by
  have hw : 0 < w := lt_of_le_of_lt hi0 hiw
  have hjb : j = b := by
    by_contra hne
    rcases lt_or_gt_of_ne hne with hlt | hgt
    · have h1 : j + 1 ≤ b := hlt
      have h2 : (j + 1) * w ≤ b * w := mul_le_mul_of_nonneg_right h1 hw.le
      rw [add_mul, one_mul] at h2
      linarith
    · have h1 : b + 1 ≤ j := hgt
      have h2 : (b + 1) * w ≤ j * w := mul_le_mul_of_nonneg_right h1 hw.le
      rw [add_mul, one_mul] at h2
      linarith
  refine ⟨?_, hjb⟩
  rw [hjb] at heq
  linarith

theorem drawCol_miss (w h : Int) (bm : FTBitmap) (x y : Int) (p : Nat) (image : Int → Nat)
    (k : Int)
    (hm : ∀ q : Nat, q < bm.rows →
      ¬(x + (p : Int) < 0 ∨ y + (q : Int) < 0 ∨ x + (p : Int) ≥ w ∨ y + (q : Int) ≥ h) →
      k ≠ (y + (q : Int)) * w + (x + (p : Int))) :
    drawCol w h bm x y p image k = image k := by
  unfold drawCol
  refine foldl_range_pointwise_miss _ k bm.rows image (fun q img hq => ?_)
  by_cases hg : x + (p : Int) < 0 ∨ y + (q : Int) < 0 ∨ x + (p : Int) ≥ w ∨ y + (q : Int) ≥ h
  · rw [drawStep_oob w h bm x y p q img hg]
  · exact drawStep_ne w h bm x y p q img k (hm q hq hg)

theorem drawCol_hit (w h : Int) (bm : FTBitmap) (x y : Int) (p : Nat) (image : Int → Nat)
    (q₀ : Nat) (hq : q₀ < bm.rows)
    (hg : ¬(x + (p : Int) < 0 ∨ y + (q₀ : Int) < 0 ∨ x + (p : Int) ≥ w ∨ y + (q₀ : Int) ≥ h)) :
    drawCol w h bm x y p image ((y + (q₀ : Int)) * w + (x + (p : Int)))
      = image ((y + (q₀ : Int)) * w + (x + (p : Int))) ||| bm.buffer (q₀ * bm.width + p) := by
  unfold drawCol
  refine foldl_range_pointwise_hit _ _ _ bm.rows q₀ image hq ?_ ?_
  · intro q img hqlt hne
    by_cases hgq : x + (p : Int) < 0 ∨ y + (q : Int) < 0 ∨ x + (p : Int) ≥ w ∨ y + (q : Int) ≥ h
    · rw [drawStep_oob w h bm x y p q img hgq]
    · refine drawStep_ne w h bm x y p q img _ (fun heq => ?_)
      push_neg at hg hgq
      have hu := flatIdx_inj hg.1 hg.2.2.1 hgq.1 hgq.2.2.1 heq
      have hqq : (q₀ : Int) = (q : Int) := by linarith [hu.2]
      exact hne (Nat.cast_injective hqq).symm
  · intro img
    exact drawStep_hit w h bm x y p q₀ img hg

theorem DrawGlyph_miss (image : Int → Nat) (w h : Int) (bm : FTBitmap) (x y : Int) (k : Int)
    (hm : ∀ p : Nat, p < bm.width → ∀ q : Nat, q < bm.rows →
      ¬(x + (p : Int) < 0 ∨ y + (q : Int) < 0 ∨ x + (p : Int) ≥ w ∨ y + (q : Int) ≥ h) →
      k ≠ (y + (q : Int)) * w + (x + (p : Int))) :
    DrawGlyph image w h bm x y k = image k := by
  unfold DrawGlyph
  refine foldl_range_pointwise_miss _ k bm.width image (fun p img hp => ?_)
  exact drawCol_miss w h bm x y p img k (fun q hq hg => hm p hp q hq hg)

theorem DrawGlyph_hit (image : Int → Nat) (w h : Int) (bm : FTBitmap) (x y : Int)
    (p₀ q₀ : Nat) (hp : p₀ < bm.width) (hq : q₀ < bm.rows)
    (hg : ¬(x + (p₀ : Int) < 0 ∨ y + (q₀ : Int) < 0 ∨ x + (p₀ : Int) ≥ w ∨ y + (q₀ : Int) ≥ h)) :
    DrawGlyph image w h bm x y ((y + (q₀ : Int)) * w + (x + (p₀ : Int)))
      = image ((y + (q₀ : Int)) * w + (x + (p₀ : Int))) ||| bm.buffer (q₀ * bm.width + p₀) := by
  unfold DrawGlyph
  refine foldl_range_pointwise_hit _ _ _ bm.width p₀ image hp ?_ ?_
  · intro p img hplt hne
    refine drawCol_miss w h bm x y p img _ (fun q hqlt hgq heq => ?_)
    have hgc := hg
    push_neg at hgc hgq
    have hu := flatIdx_inj hgc.1 hgc.2.2.1 hgq.1 hgq.2.2.1 heq
    have hpp : (p₀ : Int) = (p : Int) := by linarith [hu.1]
    exact hne (Nat.cast_injective hpp).symm
  · intro img
    exact drawCol_hit w h bm x y p₀ img q₀ hq hg

/-- In a bitwise OR, the first operand is a lower bound of the result. -/
theorem nat_le_lor (a b : Nat) : a ≤ a ||| b :=
  Nat.le_of_testBit (fun i hbit => by rw [Nat.testBit_or, hbit, Bool.true_or])

/-- A DrawGlyph call never decreases any canvas sample. -/
theorem DrawGlyph_le (image : Int → Nat) (w h : Int) (bm : FTBitmap) (x y : Int) (k : Int) :
    image k ≤ DrawGlyph image w h bm x y k := by
  by_cases hex : ∃ p : Nat, p < bm.width ∧ ∃ q : Nat, q < bm.rows ∧
      ¬(x + (p : Int) < 0 ∨ y + (q : Int) < 0 ∨ x + (p : Int) ≥ w ∨ y + (q : Int) ≥ h) ∧
      k = (y + (q : Int)) * w + (x + (p : Int))
  · obtain ⟨p, hp, q, hq, hg, hk⟩ := hex
    subst hk
    rw [DrawGlyph_hit image w h bm x y p q hp hq hg]
    exact nat_le_lor _ _
  · push_neg at hex
    refine le_of_eq (DrawGlyph_miss image w h bm x y k ?_).symm
    intro p hp q hq hg
    push_neg at hg
    exact hex p hp q hq hg

/- ------------------------------------------------------------------ -/
/- Pen walks, bounding box union, sizing and encoding lemmas.         -/
/- ------------------------------------------------------------------ -/

theorem renderPassFrom_trans (face : FaceOracle) (w h : Int) :
    ∀ (cps : List Nat) (s : RenderState),
    (renderPassFrom face w h s cps).trans
      = (s.trans.1 + advSumX face cps, s.trans.2 + advSumY face cps) := by
  intro cps
  induction cps with
  | nil =>
    intro s
    simp [renderPassFrom, advSumX, advSumY]
  | cons c l ih =>
    intro s
    have hstep : renderPassFrom face w h s (c :: l)
        = renderPassFrom face w h (renderStep face w h s c) l := rfl
    rw [hstep, ih]
    simp [renderStep, advSumX, advSumY, add_assoc]

theorem metricsPassFrom_trans (face : FaceOracle) :
    ∀ (cps : List Nat) (s : MetricsState),
    (metricsPassFrom face s cps).trans
      = (s.trans.1 + advSumX face cps, s.trans.2 + advSumY face cps) := by
  intro cps
  induction cps with
  | nil =>
    intro s
    simp [metricsPassFrom, advSumX, advSumY]
  | cons c l ih =>
    intro s
    have hstep : metricsPassFrom face s (c :: l)
        = metricsPassFrom face (metricsStep face s c) l := rfl
    rw [hstep, ih]
    simp [metricsStep, advSumX, advSumY, add_assoc]

theorem wfBBox_unionBBox_right (b g : FTBBox) (hg : wfBBox g) : wfBBox (unionBBox b g) := by
  obtain ⟨h1, h2⟩ := hg
  unfold unionBBox wfBBox
  constructor <;> dsimp <;> split_ifs <;> omega

theorem wfBBox_unionBBox_left (b g : FTBBox) (hb : wfBBox b) : wfBBox (unionBBox b g) := by
  obtain ⟨h1, h2⟩ := hb
  unfold unionBBox wfBBox
  constructor <;> dsimp <;> split_ifs <;> omega

theorem metricsPassFrom_wfBBox (face : FaceOracle) :
    ∀ (cps : List Nat) (s : MetricsState), wfBBox s.bbox →
    wfBBox (metricsPassFrom face s cps).bbox := by
  intro cps
  induction cps with
  | nil => intro s hs; exact hs
  | cons c l ih =>
    intro s hs
    exact ih (metricsStep face s c) (wfBBox_unionBBox_left s.bbox (face.cbox s.trans c) hs)

theorem tdiv64_eq_fdiv64 (a : Int) (ha : 0 ≤ a) : Int.tdiv a 64 = Int.fdiv a 64 :=
  (Int.fdiv_eq_tdiv ha (by norm_num)).symm

theorem utf16Len_le_utf8Len (cp : Nat) : utf16Len cp ≤ utf8Len cp := by
  unfold utf16Len utf8Len
  split_ifs <;> omega

theorem utf16Size_le_utf8Size (t : List Nat) : utf16Size t ≤ utf8Size t := by
  induction t with
  | nil => simp [utf8Size, utf16Size]
  | cons c l ih =>
    simp only [utf8Size, utf16Size, List.map_cons, List.sum_cons] at ih ⊢
    have := utf16Len_le_utf8Len c
    omega

theorem utf8Len_le_two_utf16 (cp : Nat) (h : cp < 0x800 ∨ 0x10000 ≤ cp) :
    utf8Len cp ≤ 2 * utf16Len cp := by
  unfold utf16Len utf8Len
  split_ifs <;> omega

/- ------------------------------------------------------------------ -/
/- Claim theorems.                                                    -/
/- ------------------------------------------------------------------ -/

/-- C1: for every metrics-pass bounding box with xMin ≤ xMax and
yMin ≤ yMax, the canvas width computed by the compositor equals
(bbox.xMax - bbox.xMin) / 64 and the height (bbox.yMax - bbox.yMin) / 64
with C integer division truncating toward zero (canvasWidth and
canvasHeight are defined by Int.tdiv), and, the extents being nonnegative,
these equal the floor divisions of the extents by the subpixel scale. -/
theorem canvas_dims_floor :
    ∀ (face : FaceOracle) (cps : List Nat),
    (metricsPass face cps).bbox.xMin ≤ (metricsPass face cps).bbox.xMax →
    (metricsPass face cps).bbox.yMin ≤ (metricsPass face cps).bbox.yMax →
    (mainPipeline face cps).2.1
      = Int.fdiv ((metricsPass face cps).bbox.xMax - (metricsPass face cps).bbox.xMin) 64
    ∧ (mainPipeline face cps).2.2
      = Int.fdiv ((metricsPass face cps).bbox.yMax - (metricsPass face cps).bbox.yMin) 64 := by
  intro face cps h1 h2
  constructor
  · show canvasWidth (metricsPass face cps).bbox = _
    unfold canvasWidth
    exact tdiv64_eq_fdiv64 _ (by omega)
  · show canvasHeight (metricsPass face cps).bbox = _
    unfold canvasHeight
    exact tdiv64_eq_fdiv64 _ (by omega)

theorem canvas_dims_floor_witness :
    (mainPipeline face₀ [0]).2.1
      = Int.fdiv ((metricsPass face₀ [0]).bbox.xMax - (metricsPass face₀ [0]).bbox.xMin) 64
    ∧ (mainPipeline face₀ [0]).2.2
      = Int.fdiv ((metricsPass face₀ [0]).bbox.yMax - (metricsPass face₀ [0]).bbox.yMin) 64 :=
  canvas_dims_floor face₀ [0] (by decide) (by decide)

/-- C2 counterexample: the claim says the render-pass pen position at each
glyph index equals the metrics-pass pen position there.  With face₁ the
metrics pass computes aboveOriginShift = 5, and the render pass starts its
pen at (0, aboveOriginShift) (line 207), so already at glyph index 0 the
two pen positions differ: (0, 5) against (0, 0). -/
theorem render_pen_trajectory_cx :
    (renderPassFrom face₁ 1 1
        { trans := (0, (metricsPass face₁ [0]).shift), image := fun _ => 0 }
        (List.take 0 [0])).trans
      ≠ (metricsPassFrom face₁ initMetricsState (List.take 0 [0])).trans := by
  decide

/-- C2 amended: at every glyph index i the render-pass pen equals the
metrics-pass pen translated by the constant (0, aboveOriginShift): the x
components coincide and the y components differ exactly by the shift, the
two walks accumulating the same advance sums. -/
theorem render_pen_trajectory_shifted :
    ∀ (face : FaceOracle) (w h shift : Int) (img : Int → Nat) (cps : List Nat) (i : Nat),
    (renderPassFrom face w h { trans := (0, shift), image := img } (cps.take i)).trans
      = ((metricsPassFrom face initMetricsState (cps.take i)).trans.1,
         (metricsPassFrom face initMetricsState (cps.take i)).trans.2 + shift) := by
  intro face w h shift img cps i
  rw [renderPassFrom_trans, metricsPassFrom_trans]
  simp [initMetricsState, Prod.ext_iff]
  omega

/-- C3: a DrawGlyph call changes the canvas only at flat indices that
decode to an in-bounds pixel (i, j) with 0 ≤ i < width, 0 ≤ j < height
lying inside the destination rectangle of the glyph bitmap (out-of-bounds
destination pixels are silently skipped, for any offset (x, y) including
negative ones), and on an all-zero canvas every in-bounds pixel outside
the destination rectangle still reads zero afterwards. -/
theorem DrawGlyph_clips_safely :
    ∀ (image : Int → Nat) (w h : Int) (bm : FTBitmap) (x y : Int),
    (∀ k : Int, DrawGlyph image w h bm x y k ≠ image k →
      ∃ i j : Int, 0 ≤ i ∧ i < w ∧ 0 ≤ j ∧ j < h ∧
        x ≤ i ∧ i < x + (bm.width : Int) ∧ y ≤ j ∧ j < y + (bm.rows : Int) ∧ k = j * w + i)
    ∧ (∀ i j : Int, 0 ≤ i → i < w → 0 ≤ j → j < h →
        ¬(x ≤ i ∧ i < x + (bm.width : Int) ∧ y ≤ j ∧ j < y + (bm.rows : Int)) →
        DrawGlyph (fun _ => 0) w h bm x y (j * w + i) = 0) := by
  intro image w h bm x y
  constructor
  · intro k hk
    by_contra hno
    push_neg at hno
    refine hk (DrawGlyph_miss image w h bm x y k ?_)
    intro p hp q hq hg heq
    push_neg at hg
    exact hno (x + (p : Int)) (y + (q : Int)) hg.1 hg.2.2.1 hg.2.1 hg.2.2.2
      (by omega) (by omega) (by omega) (by omega) heq
  · intro i j hi0 hiw hj0 hjh hnr
    apply DrawGlyph_miss
    intro p hp q hq hg heq
    push_neg at hg
    obtain ⟨hia, hjb⟩ := flatIdx_inj hi0 hiw hg.1 hg.2.2.1 heq
    exact hnr ⟨by omega, by omega, by omega, by omega⟩

theorem DrawGlyph_clips_safely_witness :
    DrawGlyph (fun _ => 0) 2 2 bmTest 5 5 ((0 : Int) * 2 + 0) = 0 :=
  (DrawGlyph_clips_safely (fun _ => 0) 2 2 bmTest 5 5).2 0 0 (by decide) (by decide)
    (by decide) (by decide) (by decide)

/-- C4 counterexample: the claim says the degenerate sentinel bounding box
of an empty shaped sequence is detected before canvas sizing, an
EmptyRunError is reported, and no negative- or zero-size allocation is
attempted.  The code has no such check and no error path: on the empty
sequence the sizing computation is reached with the sentinel box and the
pipeline requests a canvas of width -67108863 = (INT_MIN - INT_MAX) / 64,
a negative size. -/
theorem empty_run_reaches_sizing_cx :
    (metricsPass face₀ []).bbox
      = { xMin := INT_MAX, yMin := INT_MAX, xMax := INT_MIN, yMax := INT_MIN }
    ∧ (mainPipeline face₀ ([] : List Nat)).2.1 = -67108863
    ∧ ¬(0 ≤ (mainPipeline face₀ ([] : List Nat)).2.1) := by
  decide

/-- C4 amended: on the empty shaped sequence the pipeline performs no
detection and reports no error: the bounding box keeps its INT_MAX and
INT_MIN sentinels, the canvas dimensions are computed directly from the
sentinel box as (-67108863, -67108863), the allocation and render stage is
still reached with this negative requested size, and a degenerate PGM
header is emitted. -/
theorem empty_run_no_detection :
    (metricsPass face₀ []).bbox
      = { xMin := INT_MAX, yMin := INT_MAX, xMax := INT_MIN, yMax := INT_MIN }
    ∧ (mainPipeline face₀ ([] : List Nat)).2 = (-67108863, -67108863)
    ∧ fullProgram goodIcu (fun _ => []) face₀ [] = (-67108863, -67108863, 255, []) := by
  decide

/-- C5 counterexample: the claim says any internal error code from the
encoding converter or the bidi engine is fatal, stopping the pipeline
before any output.  With an engine whose conversion reports error code 1,
the program still shapes, composites, and emits a complete PGM image. -/
theorem icu_error_output_cx :
    (icuReorder badIcu []).2 = 1
    ∧ fullProgram badIcu (fun _ => [0]) face₀ [] = (1, 1, 255, [[255]]) := by
  decide

/-- C5 amended: the pipeline never inspects the ICU error code: the
emitted image is a function of the reordered text alone, so two engines
producing the same text, one failing and one succeeding, give identical
output, and the image is emitted regardless of the reported error. -/
theorem icu_error_ignored :
    ∀ (e₁ e₂ : IcuEngine) (shape : List Nat → List Nat) (face : FaceOracle) (input : List Nat),
    (icuReorder e₁ input).1 = (icuReorder e₂ input).1 →
    fullProgram e₁ shape face input = fullProgram e₂ shape face input := by
  intro e₁ e₂ shape face input hsame
  dsimp only [fullProgram]
  rw [hsame]

theorem icu_error_ignored_witness :
    fullProgram badIcu (fun _ => [0]) face₀ [] = fullProgram goodIcu (fun _ => [0]) face₀ [] :=
  icu_error_ignored badIcu goodIcu (fun _ => [0]) face₀ [] (by decide)

/-- C6: in the render pass each glyph is composited with its destination
top-left pixel at (bitmap_left, canvasHeight - bitmap_top): processing
glyph cp from state s is one renderPassFrom step, and source pixel (p, q)
of its bitmap is ORed into canvas pixel
(bitmap_left + p, (canvasHeight - bitmap_top) + q) whenever that pixel is
in bounds — the vertical flip from the up-is-positive baseline convention
to the down-is-positive row convention. -/
theorem renderStep_offset :
    ∀ (face : FaceOracle) (w h : Int) (s : RenderState) (cp : Nat) (rest : List Nat) (p q : Nat),
    p < (face.bitmap s.trans cp).width → q < (face.bitmap s.trans cp).rows →
    ¬(face.bitmapLeft s.trans cp + (p : Int) < 0 ∨
      (h - face.bitmapTop s.trans cp) + (q : Int) < 0 ∨
      face.bitmapLeft s.trans cp + (p : Int) ≥ w ∨
      (h - face.bitmapTop s.trans cp) + (q : Int) ≥ h) →
    renderPassFrom face w h s (cp :: rest) = renderPassFrom face w h (renderStep face w h s cp) rest
    ∧ (renderStep face w h s cp).image
        (((h - face.bitmapTop s.trans cp) + (q : Int)) * w
          + (face.bitmapLeft s.trans cp + (p : Int)))
      = s.image (((h - face.bitmapTop s.trans cp) + (q : Int)) * w
          + (face.bitmapLeft s.trans cp + (p : Int)))
        ||| (face.bitmap s.trans cp).buffer (q * (face.bitmap s.trans cp).width + p) := by
  intro face w h s cp rest p q hp hq hg
  exact ⟨rfl, DrawGlyph_hit s.image w h (face.bitmap s.trans cp)
    (face.bitmapLeft s.trans cp) (h - face.bitmapTop s.trans cp) p q hp hq hg⟩

theorem renderStep_offset_witness :
    renderPassFrom face₀ 1 1 { trans := (0, 0), image := fun _ => 0 } [0]
      = renderPassFrom face₀ 1 1 (renderStep face₀ 1 1 { trans := (0, 0), image := fun _ => 0 } 0) []
    ∧ (renderStep face₀ 1 1 { trans := (0, 0), image := fun _ => 0 } 0).image
        (((1 - face₀.bitmapTop (0, 0) 0) + ((0 : Nat) : Int)) * 1
          + (face₀.bitmapLeft (0, 0) 0 + ((0 : Nat) : Int)))
      = (fun _ : Int => 0) (((1 - face₀.bitmapTop (0, 0) 0) + ((0 : Nat) : Int)) * 1
          + (face₀.bitmapLeft (0, 0) 0 + ((0 : Nat) : Int)))
        ||| (face₀.bitmap (0, 0) 0).buffer (0 * (face₀.bitmap (0, 0) 0).width + 0) :=
  renderStep_offset face₀ 1 1 { trans := (0, 0), image := fun _ => 0 } 0 [] 0 0
    (by decide) (by decide) (by decide)

/-- C7: for every non-empty shaped glyph sequence whose queried ink boxes
all satisfy xMin ≤ xMax and yMin ≤ yMax, the union bounding box produced
by the metrics pass satisfies xMin ≤ xMax and yMin ≤ yMax: the min/max
union of at least one well-formed box replaces the sentinels. -/
theorem metrics_bbox_wf :
    ∀ (face : FaceOracle) (cps : List Nat), cps ≠ [] →
    (∀ (t : Int × Int) (cp : Nat), wfBBox (face.cbox t cp)) →
    wfBBox (metricsPass face cps).bbox := by
  intro face cps hne hcb
  cases cps with
  | nil => exact absurd rfl hne
  | cons c l =>
    have h0 : wfBBox (metricsStep face initMetricsState c).bbox :=
      wfBBox_unionBBox_right initMetricsState.bbox (face.cbox initMetricsState.trans c)
        (hcb initMetricsState.trans c)
    exact metricsPassFrom_wfBBox face l (metricsStep face initMetricsState c) h0

theorem metrics_bbox_wf_witness : wfBBox (metricsPass face₀ [0]).bbox :=
  metrics_bbox_wf face₀ [0] (by decide)
    (fun _ _ => (by decide : wfBBox { xMin := 0, yMin := 0, xMax := 64, yMax := 64 }))

/-- C8: OR-compositing is idempotent: applying DrawGlyph twice with the
same bitmap at the same destination offset yields the same canvas as
applying it once. -/
theorem DrawGlyph_idempotent :
    ∀ (image : Int → Nat) (w h : Int) (bm : FTBitmap) (x y : Int),
    DrawGlyph (DrawGlyph image w h bm x y) w h bm x y = DrawGlyph image w h bm x y := by
  intro image w h bm x y
  funext k
  by_cases hex : ∃ p : Nat, p < bm.width ∧ ∃ q : Nat, q < bm.rows ∧
      ¬(x + (p : Int) < 0 ∨ y + (q : Int) < 0 ∨ x + (p : Int) ≥ w ∨ y + (q : Int) ≥ h) ∧
      k = (y + (q : Int)) * w + (x + (p : Int))
  · obtain ⟨p, hp, q, hq, hg, hk⟩ := hex
    subst hk
    rw [DrawGlyph_hit (DrawGlyph image w h bm x y) w h bm x y p q hp hq hg,
      DrawGlyph_hit image w h bm x y p q hp hq hg,
      Nat.lor_assoc, Nat.or_self]
  · push_neg at hex
    have hm : ∀ p : Nat, p < bm.width → ∀ q : Nat, q < bm.rows →
        ¬(x + (p : Int) < 0 ∨ y + (q : Int) < 0 ∨ x + (p : Int) ≥ w ∨ y + (q : Int) ≥ h) →
        k ≠ (y + (q : Int)) * w + (x + (p : Int)) := by
      intro p hp q hq hg
      push_neg at hg
      exact hex p hp q hq hg
    rw [DrawGlyph_miss (DrawGlyph image w h bm x y) w h bm x y k hm]

/-- C9 counterexample: the claim says the UTF-16 to UTF-8 buffer of
(reordered code-unit length) * 2 bytes holds the full converted output for
every well-formed input.  The scalar U+2665 is well formed, occupies one
UTF-16 code unit, but needs three UTF-8 bytes, exceeding the two bytes the
source allocates for it. -/
theorem buffer_sizing_cx :
    wellFormedScalar 0x2665 ∧ utf8Size [0x2665] = 3 ∧ utf8BufBytes [0x2665] = 2
    ∧ ¬(utf8Size [0x2665] ≤ utf8BufBytes [0x2665]) := by
  decide

/-- C9 amended: the UTF-8 to UTF-16 buffer of (input byte length + 1) code
units always holds the converted output and its terminator for well-formed
input; the UTF-16 to UTF-8 buffer of (reordered code-unit length) * 2
bytes is guaranteed sufficient only for texts whose scalars all lie below
U+0800 or at U+10000 and above — a scalar in [U+0800, U+FFFF] needs three
bytes for one code unit and can overflow that budget. -/
theorem buffer_sizing_amended :
    (∀ t : List Nat, (∀ cp ∈ t, wellFormedScalar cp) → utf16Size t + 1 ≤ utf16BufUnits t)
    ∧ (∀ t : List Nat, (∀ cp ∈ t, cp < 0x800 ∨ 0x10000 ≤ cp) → utf8Size t ≤ utf8BufBytes t) := by
  constructor
  · intro t _
    have h := utf16Size_le_utf8Size t
    unfold utf16BufUnits
    omega
  · intro t
    induction t with
    | nil => intro _; simp [utf8BufBytes, utf8Size, utf16Size]
    | cons c l ih =>
      intro ht
      have hc := utf8Len_le_two_utf16 c (ht c (List.mem_cons_self c l))
      have hl := ih (fun cp hcp => ht cp (List.mem_cons_of_mem c hcp))
      simp only [utf8BufBytes, utf8Size, utf16Size, List.map_cons, List.sum_cons] at hl ⊢
      omega

theorem buffer_sizing_amended_witness :
    utf16Size [0x645] + 1 ≤ utf16BufUnits [0x645]
    ∧ utf8Size [0x645] ≤ utf8BufBytes [0x645] :=
  ⟨buffer_sizing_amended.1 [0x645] (by decide), buffer_sizing_amended.2 [0x645] (by decide)⟩

/-- C10: compositing is pointwise monotone non-decreasing: at every
in-bounds canvas pixel, the coverage value after a DrawGlyph call is at
least its value before the call. -/
theorem DrawGlyph_monotone :
    ∀ (image : Int → Nat) (w h : Int) (bm : FTBitmap) (x y : Int) (i j : Int),
    0 ≤ i → i < w → 0 ≤ j → j < h →
    image (j * w + i) ≤ DrawGlyph image w h bm x y (j * w + i) := by
  intro image w h bm x y i j _ _ _ _
  exact DrawGlyph_le image w h bm x y (j * w + i)

theorem DrawGlyph_monotone_witness :
    (fun _ : Int => 7) ((0 : Int) * 1 + 0) ≤ DrawGlyph (fun _ => 7) 1 1 bmTest 0 0 ((0 : Int) * 1 + 0) :=
  DrawGlyph_monotone (fun _ => 7) 1 1 bmTest 0 0 0 0 (by decide) (by decide) (by decide) (by decide)
